import Mathlib

/-!
Verification of the MCP reputation policy engine.

Shallow embedding of the reputation scoring and routing code
(`config.py`, `repservice.py`, `mcp.py`).  Python floats are modelled as
real numbers; `time.time()` values are passed explicitly as `now`
parameters; the JSON persistence layer is out of scope (the spec treats
it as an external collaborator), so initialization is modelled on its
no-persisted-state path.  Python's `round(x, 4)` (round half to even) is
modelled exactly on the reals, abstracting from binary floating point.
-/

open Filter

/-! ## Configuration constants (`config.py`, class `RepScoreConfig`) -/

def WEIGHT_SATISFACTION : ℝ := 0.40
def WEIGHT_RELIABILITY : ℝ := 0.30
def WEIGHT_LATENCY_PENALTY : ℝ := 0.20
def WEIGHT_COST_EFFICIENCY : ℝ := 0.10
def MIN_REPUTATION_THRESHOLD : ℝ := 0.70
def ALPHA_SMOOTHING : ℝ := 0.1
def MAX_ACCEPTABLE_LATENCY : ℝ := 0.8
def COST_BENCHMARK : ℝ := 0.005
def DEFAULT_INITIAL_SCORE : ℝ := 0.50
def REPUTATION_DECAY_HALF_LIFE_HOURS : ℝ := 24

/-! ## Tool types (`config.py`, enum `ToolType`) -/

inductive ToolType where
  | MATH_COMPUTE
  | DATA_RETRIEVAL
  | REASONING
  | IMAGE_GEN
  | SEMANTIC_SEARCH
deriving DecidableEq, Repr

/-! ## Server catalog (`config.py`, class `ServerCatalog`) -/

structure CatalogEntry where
  tool_type : ToolType
  cost_per_unit : ℝ
  error_rate : ℝ
  avg_latency : ℝ

/-- The static catalog, in Python dict insertion order (`ServerCatalog.CATALOG`). -/
noncomputable def CATALOG : List (String × CatalogEntry) :=
  [ ("compute_server_1", ⟨.MATH_COMPUTE, 0.005, 0.15, 0.3⟩),
    ("data_server_2", ⟨.DATA_RETRIEVAL, 0.001, 0.05, 0.2⟩),
    ("low_score_server_3", ⟨.MATH_COMPUTE, 0.0005, 0.40, 0.1⟩),
    ("image_fast_4", ⟨.IMAGE_GEN, 0.05, 0.10, 0.5⟩),
    ("image_cheap_5", ⟨.IMAGE_GEN, 0.008, 0.30, 1.5⟩),
    ("semantic_db_6", ⟨.SEMANTIC_SEARCH, 0.003, 0.01, 0.15⟩) ]

/-- Dictionary access `self.server_catalog[server_id]`; `none` models a
Python `KeyError`. -/
noncomputable def catalogLookup (server_id : String) : Option CatalogEntry :=
  (CATALOG.find? (fun p => p.1 == server_id)).map (fun p => p.2)

/-! ## Python `round(x, 4)` (round half to even on the reals) -/

/-- Round a real to the nearest integer, ties to even — the rule
Python's built-in `round` uses.  (Here written with `Int.fract`.) -/
noncomputable def roundHalfEven (y : ℝ) : ℤ :=
  if Int.fract y < 1/2 then ⌊y⌋
  else if 1/2 < Int.fract y then ⌊y⌋ + 1
  else if ⌊y⌋ % 2 = 0 then ⌊y⌋ else ⌊y⌋ + 1

/-- Python's `round(x, 4)`: round half to even at 4 decimal digits. -/
noncomputable def round4 (x : ℝ) : ℝ :=
  (roundHalfEven (x * 10000) : ℝ) / 10000

/-! ## Reputation state (`repservice.py`, `self.reputations`) -/

structure RepEntry where
  score : ℝ
  last_update : ℝ
  interaction_count : ℕ

/-- The in-memory reputation table `self.reputations` (a Python dict
keyed by server id); `none` models an absent key. -/
def Reputations := String → Option RepEntry

/-- Initial score of each server after `_initialize_reputations` on the
no-persisted-state path: catalog default `DEFAULT_INITIAL_SCORE`, then
the literal per-server overrides from `repservice.py` lines 48–57. -/
noncomputable def initial_score (id : String) : ℝ :=
  if id == "compute_server_1" then 0.85
  else if id == "data_server_2" then 0.95
  else if id == "image_fast_4" then 0.88
  else if id == "image_cheap_5" then 0.65
  else if id == "semantic_db_6" then 0.92
  else DEFAULT_INITIAL_SCORE

/-- Embeds `_initialize_reputations` at start time `t`, disk store empty (the
persistence collaborator is out of the spec's scope): one entry per
catalog server with its seeded score, `last_update = t`, count `0`. -/
noncomputable def initial_reputations (t : ℝ) : Reputations := fun id =>
  if (CATALOG.map Prod.fst).contains id then some ⟨initial_score id, t, 0⟩
  else none

/-! ## Decay (`repservice.py`, `_apply_decay`) -/

/-- Embeds `_apply_decay(server_id, current_rep, last_update_time)` at
wall-clock time `now` (the code reads `time.time()`; `server_id` only
feeds a log line and is dropped).  `(0.5 : ℝ) ^ r` is `Real.rpow`,
modelling Python's `pow(0.5, decay_periods)`. -/
noncomputable def apply_decay (current_rep : ℝ) (last_update_time : ℝ) (now : ℝ) : ℝ :=
  let time_elapsed := now - last_update_time
  let half_life_seconds := REPUTATION_DECAY_HALF_LIFE_HOURS * 3600
  if time_elapsed < 1 then current_rep
  else
    let decay_periods := time_elapsed / half_life_seconds
    let decay_factor := (0.5 : ℝ) ^ decay_periods
    let score_differential := current_rep - DEFAULT_INITIAL_SCORE
    let decayed_score := DEFAULT_INITIAL_SCORE + score_differential * decay_factor
    max DEFAULT_INITIAL_SCORE decayed_score

/-- Embeds `get_reputation(server_id)` at time `now`: returns the decayed score
and the (possibly updated) reputation table — the code writes the
decayed score and refreshes `last_update` when decay lowered the score. -/
noncomputable def get_reputation (reps : Reputations) (server_id : String) (now : ℝ) :
    ℝ × Reputations :=
  match reps server_id with
  | none => (DEFAULT_INITIAL_SCORE, reps)
  | some rep_data =>
      let current_score := rep_data.score
      let last_update := rep_data.last_update
      let decayed_score := apply_decay current_score last_update now
      if decayed_score < current_score then
        (decayed_score,
         fun id => if id = server_id then
             some { rep_data with score := decayed_score, last_update := now }
           else reps id)
      else (decayed_score, reps)

/-! ## Scoring engine (`repservice.py`, `_get_avg_cost_for_tool`,
`calculate_new_score`) -/

/-- Embeds `_get_avg_cost_for_tool(tool_type)`: mean declared unit cost over all
catalog servers of the given tool type, falling back to `COST_BENCHMARK`
when no server matches (defensive division check in the code). -/
noncomputable def get_avg_cost_for_tool (tool_type : ToolType) : ℝ :=
  let matching := CATALOG.filter (fun p => p.2.tool_type == tool_type)
  if matching.length = 0 then COST_BENCHMARK
  else (matching.map (fun p => p.2.cost_per_unit)).sum / matching.length

/-- The fields of a transaction log dict that the scoring service reads
(`outcome_status`, `latency_sec`, `client_satisfaction`, `server_id`);
the remaining telemetry fields built by `_create_log_entry` are never
read by the core. -/
structure LogEntry where
  server_id : String
  outcome_status : String
  latency_sec : ℝ
  client_satisfaction : ℝ

/-- Embeds `calculate_new_score(current_score, log_entry)`.  `none` models the
`KeyError` raised by `self.server_catalog[server_id]` when the server is
not in the catalog. -/
noncomputable def calculate_new_score (current_score : ℝ) (log_entry : LogEntry) :
    Option ℝ :=
  match catalogLookup log_entry.server_id with
  | none => none
  | some entry =>
      let outcome := log_entry.outcome_status
      let latency := log_entry.latency_sec
      let satisfaction := log_entry.client_satisfaction
      let tool_type := entry.tool_type
      let actual_unit_price := entry.cost_per_unit
      let avg_market_unit_price := get_avg_cost_for_tool tool_type
      let reliability_factor : ℝ := if outcome = "SUCCESS" then 1.0 else 0.0
      let latency_ratio := min 1.0 (latency / MAX_ACCEPTABLE_LATENCY)
      let latency_factor := 1.0 - latency_ratio
      let cost_factor :=
        if actual_unit_price ≤ avg_market_unit_price then (1.0 : ℝ)
        else max 0.0 (1.0 - (actual_unit_price - avg_market_unit_price) / avg_market_unit_price)
      let clamped_satisfaction := max 0.0 (min 1.0 satisfaction)
      let WCS :=
        WEIGHT_SATISFACTION * clamped_satisfaction +
        WEIGHT_RELIABILITY * reliability_factor +
        WEIGHT_LATENCY_PENALTY * latency_factor +
        WEIGHT_COST_EFFICIENCY * cost_factor
      let new_score := ALPHA_SMOOTHING * WCS + (1 - ALPHA_SMOOTHING) * current_score
      some (round4 (max 0.0 (min 1.0 new_score)))

/-! ## Feedback submission (`repservice.py`, `submit_feedback`) -/

/-- A raised Python exception, carrying the offending dict key. -/
inductive PyError where
  | keyError (key : String)
deriving DecidableEq, Repr

/-- Embeds `submit_feedback(log_entry)` at time `now`.  Returns the raised
exception (if any) together with the reputation table at the moment the
call finishes or raises: the code first calls `get_reputation` (whose
decay write, if any, persists), then indexes `self.reputations[server_id]`
— the first point that raises `KeyError` for an unregistered id — then
computes and stores the new score.  The disk write (`store.update_server_score`)
is out of the spec's scope. -/
noncomputable def submit_feedback (reps : Reputations) (log_entry : LogEntry) (now : ℝ) :
    Option PyError × Reputations :=
  let server_id := log_entry.server_id
  let res := get_reputation reps server_id now
  let current_score := res.1
  let reps1 := res.2
  match reps1 server_id with
  | none => (some (.keyError server_id), reps1)
  | some entry =>
      let count := entry.interaction_count + 1
      match calculate_new_score current_score log_entry with
      | none => (some (.keyError server_id), reps1)
      | some new_score =>
          (none,
           fun id => if id = server_id then
               some ⟨new_score, now, count⟩
             else reps1 id)

/-! ## Discovery (`repservice.py`, `discover_servers`) -/

/-- A discovered candidate dict
`{"server_id": ..., "score": ..., "cost": ..., "tool_type": ...}`. -/
structure Candidate where
  server_id : String
  score : ℝ
  cost : ℝ
  tool_type : ToolType

/-- The catalog iteration inside `discover_servers`: filter by tool type
and read each match's live reputation (threading the table through the
`get_reputation` side effects), in catalog order, unsorted. -/
noncomputable def discover_loop (tool_type : ToolType) (now : ℝ) :
    List (String × CatalogEntry) → Reputations → List Candidate × Reputations
  | [], reps => ([], reps)
  | (s_id, data) :: rest, reps =>
      if data.tool_type = tool_type then
        let res := get_reputation reps s_id now
        let tail := discover_loop tool_type now rest res.2
        (⟨s_id, res.1, data.cost_per_unit, tool_type⟩ :: tail.1, tail.2)
      else discover_loop tool_type now rest reps

/-- Insert a candidate into a descending-by-score list, after every
element of score ≥ its own: the insertion step of a stable descending
sort. -/
noncomputable def insertDesc (x : Candidate) : List Candidate → List Candidate
  | [] => [x]
  | y :: ys => if x.score ≤ y.score then y :: insertDesc x ys else x :: y :: ys

/-- Stable sort, descending by score — extensionally the behaviour of
Python's stable `sorted(..., key=lambda x: x["score"], reverse=True)`
(any two stable descending-by-key sorts agree). -/
noncomputable def sortDesc (l : List Candidate) : List Candidate :=
  l.foldl (fun acc x => insertDesc x acc) []

/-- Embeds `discover_servers(tool_type)` at time `now`: the sorted candidate
list plus the reputation table after the `get_reputation` reads. -/
noncomputable def discover_servers (reps : Reputations) (tool_type : ToolType) (now : ℝ) :
    List Candidate × Reputations :=
  let res := discover_loop tool_type now CATALOG reps
  (sortDesc res.1, res.2)

/-! ## Routing policy (`mcp.py`, `_select_best_server`) -/

/-- Outcome of the selection policy.  The code returns `None` on both
blocked paths; they are distinguishable by their log output ("No
available servers" vs. "Policy BLOCK"), which the spec names
`Blocked(NoProvider)` and `Blocked(AllBelowThreshold)`. -/
inductive SelectResult where
  | blockedNoProvider
  | blockedAllBelowThreshold
  | selected (server_id : String)
deriving DecidableEq, Repr

/-- The candidate-list core of `_select_best_server` (lines 108–124),
with the threshold as a parameter (the code passes the constant
`MIN_REPUTATION_THRESHOLD`): empty list → blocked; otherwise filter by
`score >= minThreshold`; empty filtered set → blocked; else the first
surviving (already score-sorted) candidate. -/
noncomputable def select_best (candidates : List Candidate) (minThreshold : ℝ) :
    SelectResult :=
  match candidates with
  | [] => .blockedNoProvider
  | _ :: _ =>
    match candidates.filter (fun c => decide (minThreshold ≤ c.score)) with
    | [] => .blockedAllBelowThreshold
    | best :: _ => .selected best.server_id

/-- Embeds `_select_best_server(tool_type)` end to end: discover, then select
with the configured threshold. -/
noncomputable def select_best_server (reps : Reputations) (tool_type : ToolType) (now : ℝ) :
    SelectResult × Reputations :=
  let res := discover_servers reps tool_type now
  (select_best res.1 MIN_REPUTATION_THRESHOLD, res.2)

/-! ## Feedback derivation (`mcp.py`, `_determine_satisfaction`) -/

/-- Embeds `_determine_satisfaction(outcome, latency, server_confidence)`:
fixed `0.1` on non-success; on success a latency penalty capped at `0.5`
and a small confidence bonus, floored at `0.2`; `round(..., 4)` applied
in both branches. -/
noncomputable def determine_satisfaction (outcome : String) (latency : ℝ)
    (server_confidence : ℝ) : ℝ :=
  if outcome = "SUCCESS" then
    let latency_penalty := min 0.5 (latency * 1.5)
    let confidence_bonus := server_confidence * 0.1
    round4 (max 0.2 (1.0 - latency_penalty + confidence_bonus))
  else round4 0.1

/-! ## Startup (`repservice.py`, `RepScoreService.__init__`) -/

/-- The weight/benchmark configuration the spec says must be validated
at startup.  The code keeps these as class constants on `RepScoreConfig`
(`defaultServiceConfig` below); `__init__` is parametrized by them here
to express what it does for an arbitrary configuration. -/
structure ServiceConfig where
  weight_satisfaction : ℝ
  weight_reliability : ℝ
  weight_latency_penalty : ℝ
  weight_cost_efficiency : ℝ
  cost_benchmark : ℝ

/-- The configuration actually shipped in `config.py`. -/
noncomputable def defaultServiceConfig : ServiceConfig :=
  ⟨WEIGHT_SATISFACTION, WEIGHT_RELIABILITY, WEIGHT_LATENCY_PENALTY,
   WEIGHT_COST_EFFICIENCY, COST_BENCHMARK⟩

/-- The one startup error the spec's taxonomy reserves for corrupt
configuration. -/
inductive InitError where
  | configurationError
deriving DecidableEq, Repr

/-- Embeds `RepScoreService.__init__` at start time `t` (lines 11–16 of
`repservice.py`): builds the reputation table and returns.  It contains
no validation of the weights or the benchmark — no code path constructs
a configuration error — so it succeeds for every configuration. -/
noncomputable def service_init (cfg : ServiceConfig) (t : ℝ) :
    Except InitError Reputations :=
  Except.ok (initial_reputations t)

/-! ## Operation sequences over the shared table -/

/-- One externally visible operation against the reputation table:
a `get_reputation` read (which may consume decay) or a `submit_feedback`
write. -/
inductive Op where
  | getRep (server_id : String) (now : ℝ)
  | feedback (log_entry : LogEntry) (now : ℝ)

/-- State transition of the reputation table under one operation (on a
raised `KeyError` the table is whatever the call had mutated so far). -/
noncomputable def step (reps : Reputations) : Op → Reputations
  | .getRep server_id now => (get_reputation reps server_id now).2
  | .feedback log_entry now => (submit_feedback reps log_entry now).2

/-! ## Helper lemmas: rounding -/

theorem floor_le_roundHalfEven (y : ℝ) : ⌊y⌋ ≤ roundHalfEven y := by
  unfold roundHalfEven
  split
  · exact le_refl _
  · split
    · exact Int.le.intro 1 rfl
    · split
      · exact le_refl _
      · exact Int.le.intro 1 rfl

theorem roundHalfEven_le_ceil (y : ℝ) : roundHalfEven y ≤ ⌈y⌉ := by
  have hfc : ⌊y⌋ ≤ ⌈y⌉ := Int.floor_le_ceil y
  have hkey : ¬ Int.fract y < 1/2 → ⌊y⌋ + 1 ≤ ⌈y⌉ := by
    intro hge
    have h2 : (1:ℝ)/2 ≤ Int.fract y := not_lt.mp hge
    have hlt : (⌊y⌋ : ℝ) < y := by
      have := Int.fract_nonneg y
      have h0 : (0:ℝ) < Int.fract y := lt_of_lt_of_le (by norm_num) h2
      have : (⌊y⌋ : ℝ) + 0 < ⌊y⌋ + Int.fract y := by linarith
      simpa [Int.floor_add_fract] using this
    have : ⌊y⌋ < ⌈y⌉ := Int.lt_ceil.mpr hlt
    omega
  unfold roundHalfEven
  split
  · exact hfc
  next hge =>
    split
    · exact hkey hge
    · split
      · exact hfc
      · exact hkey hge

theorem roundHalfEven_intCast (n : ℤ) : roundHalfEven (n : ℝ) = n := by
  unfold roundHalfEven
  rw [Int.fract_intCast, Int.floor_intCast]
  norm_num

/-- Evaluate `round4` on an exact multiple of `1/10000`. -/
theorem round4_eval (x : ℝ) (n : ℤ) (h : x * 10000 = (n : ℝ)) :
    round4 x = (n : ℝ) / 10000 := by
  unfold round4
  rw [h, roundHalfEven_intCast]

theorem le_round4 (x : ℝ) (n : ℤ) (h : (n : ℝ) / 10000 ≤ x) :
    (n : ℝ) / 10000 ≤ round4 x := by
  unfold round4
  have h1 : (n : ℝ) ≤ x * 10000 := by linarith
  have h2 : n ≤ ⌊x * 10000⌋ := Int.le_floor.mpr h1
  have h3 : n ≤ roundHalfEven (x * 10000) := le_trans h2 (floor_le_roundHalfEven _)
  have h4 : (n : ℝ) ≤ (roundHalfEven (x * 10000) : ℝ) := Int.cast_le.mpr h3
  linarith

theorem round4_le (x : ℝ) (n : ℤ) (h : x ≤ (n : ℝ) / 10000) :
    round4 x ≤ (n : ℝ) / 10000 := by
  unfold round4
  have h1 : x * 10000 ≤ (n : ℝ) := by linarith
  have h2 : ⌈x * 10000⌉ ≤ n := Int.ceil_le.mpr h1
  have h3 : roundHalfEven (x * 10000) ≤ n := le_trans (roundHalfEven_le_ceil _) h2
  have h4 : (roundHalfEven (x * 10000) : ℝ) ≤ (n : ℝ) := Int.cast_le.mpr h3
  linarith

/-! ## Helper lemmas: decay -/

theorem half_life_seconds_pos : (0:ℝ) < REPUTATION_DECAY_HALF_LIFE_HOURS * 3600 := by
  unfold REPUTATION_DECAY_HALF_LIFE_HOURS; norm_num

/-- Unfolding of `apply_decay` on the no-op branch. -/
theorem apply_decay_of_recent {last now : ℝ} (s : ℝ) (h : now - last < 1) :
    apply_decay s last now = s := by
  unfold apply_decay
  rw [if_pos h]

/-- Unfolding of `apply_decay` on the decay branch. -/
theorem apply_decay_of_elapsed {last now : ℝ} (s : ℝ) (h : 1 ≤ now - last) :
    apply_decay s last now =
      max DEFAULT_INITIAL_SCORE
        (DEFAULT_INITIAL_SCORE + (s - DEFAULT_INITIAL_SCORE) *
          (0.5 : ℝ) ^ ((now - last) / (REPUTATION_DECAY_HALF_LIFE_HOURS * 3600))) := by
  unfold apply_decay
  rw [if_neg (not_lt.mpr h)]

theorem decay_factor_pos {last now : ℝ} :
    0 < (0.5 : ℝ) ^ ((now - last) / (REPUTATION_DECAY_HALF_LIFE_HOURS * 3600)) :=
  Real.rpow_pos_of_pos (by norm_num) _

theorem decay_factor_le_one {last now : ℝ} (h : 1 ≤ now - last) :
    (0.5 : ℝ) ^ ((now - last) / (REPUTATION_DECAY_HALF_LIFE_HOURS * 3600)) ≤ 1 := by
  refine Real.rpow_le_one (by norm_num) (by norm_num) ?_
  exact div_nonneg (by linarith) (le_of_lt half_life_seconds_pos)

/-- Bounds of a decayed score: decay keeps `[0,1]` scores in `[0,1]`. -/
theorem apply_decay_mem {s last now : ℝ} (h0 : 0 ≤ s) (h1 : s ≤ 1) :
    0 ≤ apply_decay s last now ∧ apply_decay s last now ≤ 1 := by
  rcases lt_or_ge (now - last) 1 with hlt | hge
  · rw [apply_decay_of_recent s hlt]; exact ⟨h0, h1⟩
  · rw [apply_decay_of_elapsed s hge]
    set f := (0.5 : ℝ) ^ ((now - last) / (REPUTATION_DECAY_HALF_LIFE_HOURS * 3600)) with hf
    have hfpos : 0 < f := decay_factor_pos
    have hfle : f ≤ 1 := decay_factor_le_one hge
    unfold DEFAULT_INITIAL_SCORE
    constructor
    · have : (0.50 : ℝ) ≤ max 0.50 (0.50 + (s - 0.50) * f) := le_max_left _ _
      linarith
    · rcases le_or_lt 0.50 s with hs | hs
      · have hd : (s - 0.50) * f ≤ (s - 0.50) * 1 :=
          mul_le_mul_of_nonneg_left hfle (by linarith)
        have : (0.50:ℝ) + (s - 0.50) * f ≤ 1 := by linarith
        exact max_le (by norm_num) this
      · have hd : (s - 0.50) * f ≤ 0 :=
          mul_nonpos_of_nonpos_of_nonneg (by linarith) (le_of_lt hfpos)
        have : (0.50:ℝ) + (s - 0.50) * f ≤ 1 := by linarith
        exact max_le (by norm_num) this

/-! ## Claim C8: decay half-life exactness -/

/-- C8: for score `0.95`, baseline `0.50`, and elapsed time exactly one
half-life (24 hours = `REPUTATION_DECAY_HALF_LIFE_HOURS * 3600`
seconds), the decay function returns `0.50 + (0.95 - 0.50) * 0.5 =
0.725` — exactly, hence within the claimed `0.005` tolerance. -/
theorem C8_decay_half_life_exact :
    apply_decay 0.95 0 (REPUTATION_DECAY_HALF_LIFE_HOURS * 3600) = 0.725 ∧
    |apply_decay 0.95 0 (REPUTATION_DECAY_HALF_LIFE_HOURS * 3600) -
      (0.50 + (0.95 - 0.50) * 0.5)| ≤ 0.005 := by
  have h1 : (1:ℝ) ≤ REPUTATION_DECAY_HALF_LIFE_HOURS * 3600 - 0 := by
    unfold REPUTATION_DECAY_HALF_LIFE_HOURS; norm_num
  have heq := @apply_decay_of_elapsed 0 (REPUTATION_DECAY_HALF_LIFE_HOURS * 3600) 0.95 h1
  have hexp : (REPUTATION_DECAY_HALF_LIFE_HOURS * 3600 - 0) /
      (REPUTATION_DECAY_HALF_LIFE_HOURS * 3600) = (1:ℝ) := by
    unfold REPUTATION_DECAY_HALF_LIFE_HOURS; norm_num
  rw [hexp, Real.rpow_one] at heq
  unfold DEFAULT_INITIAL_SCORE at heq
  have hval : apply_decay 0.95 0 (REPUTATION_DECAY_HALF_LIFE_HOURS * 3600) = 0.725 := by
    rw [heq]; norm_num
  refine ⟨hval, ?_⟩
  rw [hval]; norm_num

/-! ## Claim C10: decay is floored at the default initial score -/

/-- C10: whenever at least one second has elapsed, `_apply_decay`
returns `max(0.50, baseline-decayed value)`, hence never a value below
the default initial score `0.50`; consequently, for a server whose
stored score is below `0.50`, `get_reputation` reports at least `0.50`
while leaving the stored state (score below `0.50`) untouched. -/
theorem C10_decay_floor (s last now : ℝ) (reps : Reputations) (id : String)
    (e : RepEntry) :
    (1 ≤ now - last →
      apply_decay s last now =
        max DEFAULT_INITIAL_SCORE
          (DEFAULT_INITIAL_SCORE + (s - DEFAULT_INITIAL_SCORE) *
            (0.5 : ℝ) ^ ((now - last) / (REPUTATION_DECAY_HALF_LIFE_HOURS * 3600))) ∧
      DEFAULT_INITIAL_SCORE ≤ apply_decay s last now) ∧
    (reps id = some e → e.score < DEFAULT_INITIAL_SCORE → 1 ≤ now - e.last_update →
      DEFAULT_INITIAL_SCORE ≤ (get_reputation reps id now).1 ∧
      (get_reputation reps id now).2 = reps) := by
  constructor
  · intro h
    have heq := @apply_decay_of_elapsed last now s h
    exact ⟨heq, by rw [heq]; exact le_max_left _ _⟩
  · intro hrep hlow helapsed
    have heq := @apply_decay_of_elapsed e.last_update now e.score helapsed
    set f := (0.5 : ℝ) ^ ((now - e.last_update) / (REPUTATION_DECAY_HALF_LIFE_HOURS * 3600))
      with hf
    have hfpos : 0 < f := decay_factor_pos
    have hneg : (e.score - DEFAULT_INITIAL_SCORE) * f ≤ 0 :=
      mul_nonpos_of_nonpos_of_nonneg (by linarith) (le_of_lt hfpos)
    have hmax : apply_decay e.score e.last_update now = DEFAULT_INITIAL_SCORE := by
      rw [heq]
      exact max_eq_left (by linarith)
    have hnotlt : ¬ apply_decay e.score e.last_update now < e.score := by
      rw [hmax]; exact not_lt.mpr (le_of_lt hlow)
    simp only [get_reputation, hrep]
    rw [if_neg hnotlt]
    exact ⟨by rw [hmax], rfl⟩

/-- Witness for C10 at a concrete low-score entry (score `0.3`, last
update at time `0`, queried at time `5`). -/
theorem C10_decay_floor_witness :
    ((fun id => if id = "low_score_server_3" then some (⟨0.3, 0, 0⟩ : RepEntry)
        else none) "low_score_server_3" = some (⟨0.3, 0, 0⟩ : RepEntry)) ∧
    (0.3 : ℝ) < DEFAULT_INITIAL_SCORE ∧ (1:ℝ) ≤ 5 - 0 ∧
    DEFAULT_INITIAL_SCORE ≤
      (get_reputation
        (fun id => if id = "low_score_server_3" then some (⟨0.3, 0, 0⟩ : RepEntry)
          else none) "low_score_server_3" 5).1 ∧
    (get_reputation
        (fun id => if id = "low_score_server_3" then some (⟨0.3, 0, 0⟩ : RepEntry)
          else none) "low_score_server_3" 5).2 =
      (fun id => if id = "low_score_server_3" then some (⟨0.3, 0, 0⟩ : RepEntry)
        else none) := by
  have h1 : (fun id => if id = "low_score_server_3" then some (⟨0.3, 0, 0⟩ : RepEntry)
      else none : Reputations) "low_score_server_3" = some (⟨0.3, 0, 0⟩ : RepEntry) := by
    simp
  have h2 : (0.3 : ℝ) < DEFAULT_INITIAL_SCORE := by unfold DEFAULT_INITIAL_SCORE; norm_num
  have h3 : (1:ℝ) ≤ 5 - 0 := by norm_num
  have hmain := (C10_decay_floor 0 0 5
    (fun id => if id = "low_score_server_3" then some (⟨0.3, 0, 0⟩ : RepEntry) else none)
    "low_score_server_3" ⟨0.3, 0, 0⟩).2 h1 h2 h3
  exact ⟨h1, h2, h3, hmain.1, hmain.2⟩

/-! ## Claim C5: feedback derivation (corrected — no upper clamp) -/

/-- C5 counterexample: on success with latency `0` and declared
confidence `1`, `_determine_satisfaction` returns `1.1`, which exceeds
`1.0` — so the code does not compute `clamp(0.2, 1.0, ...)` and the
success result is not always in `[0.2, 1.0]`. -/
theorem C5_satisfaction_counterexample :
    determine_satisfaction "SUCCESS" 0 1 = 1.1 ∧
    ¬ determine_satisfaction "SUCCESS" 0 1 ≤ 1 := by
  have hval : determine_satisfaction "SUCCESS" 0 1 = 1.1 := by
    simp only [determine_satisfaction, if_true]
    have h1 : max (0.2:ℝ) (1.0 - min 0.5 ((0:ℝ) * 1.5) + (1:ℝ) * 0.1) = 1.1 := by
      norm_num
    rw [h1]
    have h2 : (1.1:ℝ) * 10000 = ((11000 : ℤ) : ℝ) := by norm_num
    rw [round4_eval _ 11000 h2]
    norm_num
  exact ⟨hval, by rw [hval]; norm_num⟩

/-- C5 amended: `_determine_satisfaction` returns exactly `0.1` on any
non-success outcome regardless of latency and confidence; on success it
returns `round(max(0.2, 1.0 - min(0.5, latency*1.5) +
declaredConfidence*0.1), 4)` — floored at `0.2` but with no upper clamp
— so for latency `≥ 0` and confidence in `[0,1]` the success result lies
in `[0.2, 1.1]` (not `[0.2, 1.0]`). -/
theorem C5_satisfaction_amended (outcome : String) (latency confidence : ℝ) :
    (outcome ≠ "SUCCESS" → determine_satisfaction outcome latency confidence = 0.1) ∧
    (outcome = "SUCCESS" →
      determine_satisfaction outcome latency confidence =
        round4 (max 0.2 (1.0 - min 0.5 (latency * 1.5) + confidence * 0.1))) ∧
    (outcome = "SUCCESS" → 0 ≤ latency → 0 ≤ confidence → confidence ≤ 1 →
      0.2 ≤ determine_satisfaction outcome latency confidence ∧
      determine_satisfaction outcome latency confidence ≤ 1.1) := by
  refine ⟨?_, ?_, ?_⟩
  · intro h
    simp only [determine_satisfaction]
    rw [if_neg h]
    have h2 : (0.1:ℝ) * 10000 = ((1000 : ℤ) : ℝ) := by norm_num
    rw [round4_eval _ 1000 h2]
    norm_num
  · intro h
    simp only [determine_satisfaction]
    rw [if_pos h]
  · intro h hl hc0 hc1
    simp only [determine_satisfaction]
    rw [if_pos h]
    set v := max (0.2:ℝ) (1.0 - min 0.5 (latency * 1.5) + confidence * 0.1) with hv
    have hvlo : (0.2:ℝ) ≤ v := le_max_left _ _
    have hpen : (0:ℝ) ≤ min 0.5 (latency * 1.5) :=
      le_min (by norm_num) (by positivity)
    have hvhi : v ≤ 1.1 := by
      apply max_le (by norm_num)
      have : confidence * 0.1 ≤ 0.1 := by linarith
      linarith
    constructor
    · have := le_round4 v 2000 (by push_cast; linarith)
      push_cast at this; linarith
    · have := round4_le v 11000 (by push_cast; linarith)
      push_cast at this; linarith

/-- Witness for C5 at concrete inputs: a failed outcome yields `0.1`,
and a successful call with latency `0.4`, confidence `0.9` stays within
the amended bounds. -/
theorem C5_satisfaction_amended_witness :
    ("ERROR" ≠ "SUCCESS") ∧
    determine_satisfaction "ERROR" 0.3 0.5 = 0.1 ∧
    (0.2:ℝ) ≤ determine_satisfaction "SUCCESS" 0.4 0.9 ∧
    determine_satisfaction "SUCCESS" 0.4 0.9 ≤ 1.1 := by
  have hne : ("ERROR" ≠ "SUCCESS") := by decide
  have h1 := (C5_satisfaction_amended "ERROR" 0.3 0.5).1 hne
  have h2 := (C5_satisfaction_amended "SUCCESS" 0.4 0.9).2.2 rfl
    (by norm_num) (by norm_num) (by norm_num)
  exact ⟨hne, h1, h2.1, h2.2⟩

/-! ## Claim C9: startup validation (corrected — none exists) -/

/-- A configuration whose weights sum to `1.1`, not `1.0`. -/
noncomputable def misconfiguredService : ServiceConfig :=
  ⟨0.40, 0.30, 0.20, 0.20, 0.005⟩

/-- C9 counterexample: with a configuration whose weights do not sum to
`1.0`, service initialization still succeeds — it performs no validation
and never halts with a configuration error, refuting the claimed
startup check. -/
theorem C9_no_validation_counterexample :
    misconfiguredService.weight_satisfaction + misconfiguredService.weight_reliability +
      misconfiguredService.weight_latency_penalty +
      misconfiguredService.weight_cost_efficiency ≠ 1 ∧
    service_init misconfiguredService 0 = Except.ok (initial_reputations 0) := by
  constructor
  · unfold misconfiguredService
    norm_num
  · rfl

/-- C9 amended: the shipped configuration does satisfy the conditions
the spec says should be validated (the four weights sum to `1.0` and the
cost benchmark divisor is positive), but `RepScoreService.__init__`
performs no validation at all: it succeeds for every configuration, so
no configuration — and a fortiori no later runtime input — can produce a
`ConfigurationError`. -/
theorem C9_no_validation_amended :
    (∀ (cfg : ServiceConfig) (t : ℝ),
      service_init cfg t = Except.ok (initial_reputations t)) ∧
    defaultServiceConfig.weight_satisfaction + defaultServiceConfig.weight_reliability +
      defaultServiceConfig.weight_latency_penalty +
      defaultServiceConfig.weight_cost_efficiency = 1 ∧
    0 < defaultServiceConfig.cost_benchmark := by
  refine ⟨fun cfg t => rfl, ?_, ?_⟩
  · unfold defaultServiceConfig WEIGHT_SATISFACTION WEIGHT_RELIABILITY
      WEIGHT_LATENCY_PENALTY WEIGHT_COST_EFFICIENCY
    norm_num
  · unfold defaultServiceConfig COST_BENCHMARK
    norm_num

/-! ## Claim C2: routing policy selection -/

/-- C2: `select` blocks with `NoProvider` on an empty candidate list;
otherwise it filters to candidates with `score >= minThreshold`, blocks
with `AllBelowThreshold` when the filtered set is empty, and otherwise
returns the first element of the filtered list — which, when the input
is score-sorted descending, is a highest-score eligible candidate.  In
particular a single candidate `low_score_server_3` at score `0.50`
against threshold `0.70` is blocked with `AllBelowThreshold`. -/
theorem C2_select_policy (candidates : List Candidate) (minThreshold : ℝ) :
    (candidates = [] →
      select_best candidates minThreshold = .blockedNoProvider) ∧
    (candidates ≠ [] →
      candidates.filter (fun c => decide (minThreshold ≤ c.score)) = [] →
      select_best candidates minThreshold = .blockedAllBelowThreshold) ∧
    (∀ best rest,
      candidates.filter (fun c => decide (minThreshold ≤ c.score)) = best :: rest →
      select_best candidates minThreshold = .selected best.server_id ∧
      (candidates.Pairwise (fun a b => b.score ≤ a.score) →
        ∀ c ∈ candidates.filter (fun c => decide (minThreshold ≤ c.score)),
          c.score ≤ best.score)) ∧
    select_best [⟨"low_score_server_3", 0.50, 0.0005, ToolType.MATH_COMPUTE⟩] 0.70 =
      .blockedAllBelowThreshold := by
  refine ⟨?_, ?_, ?_, ?_⟩
  · intro h
    subst h
    rfl
  · intro hne hfilt
    match candidates with
    | [] => exact absurd rfl hne
    | x :: xs =>
        simp only [select_best]
        rw [hfilt]
  · intro best rest hfilt
    match candidates with
    | [] => simp at hfilt
    | x :: xs =>
        constructor
        · simp only [select_best]
          rw [hfilt]
        · intro hsorted c hc
          have hpair : ((x :: xs).filter
              (fun c => decide (minThreshold ≤ c.score))).Pairwise
              (fun a b => b.score ≤ a.score) := hsorted.filter _
          rw [hfilt] at hpair hc
          rcases List.mem_cons.mp hc with hceep | hcrest
          · rw [hceep]
          · exact (List.pairwise_cons.mp hpair).1 c hcrest
  · have hlt : ¬ ((0.70:ℝ) ≤ 0.50) := by norm_num
    simp only [select_best, List.filter, hlt]
    rfl

/-- Witness for C2 at the claim's concrete input: the singleton
`low_score_server_3` candidate at score `0.50` is nonempty, its
`0.70`-filtered set is empty, and selection blocks with
`AllBelowThreshold`. -/
theorem C2_select_policy_witness :
    ([(⟨"low_score_server_3", 0.50, 0.0005, ToolType.MATH_COMPUTE⟩ : Candidate)] ≠ []) ∧
    ([(⟨"low_score_server_3", 0.50, 0.0005, ToolType.MATH_COMPUTE⟩ : Candidate)].filter
      (fun c => decide ((0.70:ℝ) ≤ c.score)) = []) ∧
    select_best [⟨"low_score_server_3", 0.50, 0.0005, ToolType.MATH_COMPUTE⟩] 0.70 =
      .blockedAllBelowThreshold := by
  have hne : [(⟨"low_score_server_3", 0.50, 0.0005, ToolType.MATH_COMPUTE⟩ : Candidate)] ≠
      ([] : List Candidate) := by simp
  have hfilt : [(⟨"low_score_server_3", 0.50, 0.0005,
      ToolType.MATH_COMPUTE⟩ : Candidate)].filter
      (fun c => decide ((0.70:ℝ) ≤ c.score)) = [] := by
    have hlt : ¬ ((0.70:ℝ) ≤ 0.50) := by norm_num
    simp only [List.filter, hlt]
    rfl
  exact ⟨hne, hfilt,
    (C2_select_policy [⟨"low_score_server_3", 0.50, 0.0005, ToolType.MATH_COMPUTE⟩]
      0.70).2.1 hne hfilt⟩

/-! ## Claim C1: the multi-factor score update formula -/

/-- C1: for every current score and transaction log entry (whose server
is in the catalog), `calculate_new_score` returns
`round(clamp(0, 1, alpha*WCS + (1-alpha)*currentScore), 4)` with
`alpha = 0.1`, where `WCS = 0.40*clamped_satisfaction +
0.30*reliability + 0.20*latency_factor + 0.10*cost_factor`, reliability
is `1` exactly on a `"SUCCESS"` outcome, `latency_factor =
1 - min(1, latency/0.8)`, satisfaction is clamped to `[0,1]`, and the
cost factor is `1` at-or-below the same-capability market average and
`max(0, 1 - (cost - avg)/avg)` above it. -/
theorem C1_score_update_formula (current : ℝ) (log_entry : LogEntry)
    (entry : CatalogEntry) (h : catalogLookup log_entry.server_id = some entry) :
    calculate_new_score current log_entry =
      some (round4 (max 0.0 (min 1.0
        (0.1 * (0.40 * max 0.0 (min 1.0 log_entry.client_satisfaction) +
                0.30 * (if log_entry.outcome_status = "SUCCESS" then (1.0:ℝ) else 0.0) +
                0.20 * (1.0 - min 1.0 (log_entry.latency_sec / 0.8)) +
                0.10 * (if entry.cost_per_unit ≤ get_avg_cost_for_tool entry.tool_type
                        then (1.0:ℝ)
                        else max 0.0 (1.0 -
                          (entry.cost_per_unit - get_avg_cost_for_tool entry.tool_type) /
                            get_avg_cost_for_tool entry.tool_type))) +
         0.9 * current)))) := by
  simp only [calculate_new_score, h]
  unfold WEIGHT_SATISFACTION WEIGHT_RELIABILITY WEIGHT_LATENCY_PENALTY
    WEIGHT_COST_EFFICIENCY ALPHA_SMOOTHING MAX_ACCEPTABLE_LATENCY
  have e1 : (1:ℝ) - 0.1 = 0.9 := by norm_num
  rw [e1]

/-- Witness for C1: a concrete successful transaction of
`data_server_2` at latency `0.2`, satisfaction `0.8`, current score
`0.95`. -/
theorem C1_score_update_formula_witness :
    catalogLookup "data_server_2" =
      some (⟨ToolType.DATA_RETRIEVAL, 0.001, 0.05, 0.2⟩ : CatalogEntry) ∧
    calculate_new_score 0.95 ⟨"data_server_2", "SUCCESS", 0.2, 0.8⟩ =
      some (round4 (max 0.0 (min 1.0
        (0.1 * (0.40 * max 0.0 (min 1.0 (0.8:ℝ)) +
                0.30 * (if ("SUCCESS" : String) = "SUCCESS" then (1.0:ℝ) else 0.0) +
                0.20 * (1.0 - min 1.0 ((0.2:ℝ) / 0.8)) +
                0.10 * (if (0.001:ℝ) ≤ get_avg_cost_for_tool ToolType.DATA_RETRIEVAL
                        then (1.0:ℝ)
                        else max 0.0 (1.0 -
                          ((0.001:ℝ) - get_avg_cost_for_tool ToolType.DATA_RETRIEVAL) /
                            get_avg_cost_for_tool ToolType.DATA_RETRIEVAL))) +
         0.9 * 0.95)))) := by
  have h : catalogLookup "data_server_2" =
      some (⟨ToolType.DATA_RETRIEVAL, 0.001, 0.05, 0.2⟩ : CatalogEntry) := by
    rfl
  exact ⟨h, C1_score_update_formula 0.95 ⟨"data_server_2", "SUCCESS", 0.2, 0.8⟩
    ⟨ToolType.DATA_RETRIEVAL, 0.001, 0.05, 0.2⟩ h⟩

/-! ## Claim C4: feedback for an unknown server (corrected — it raises) -/

/-- C4 counterexample: submitting feedback for the unregistered id
`"ghost_server"` raises a `KeyError` to the caller (at the
`self.reputations[server_id]` dict access on line 169 of
`repservice.py`), so the call does not fail silently. -/
theorem C4_unknown_server_counterexample :
    (submit_feedback (initial_reputations 0)
      ⟨"ghost_server", "SUCCESS", 0.1, 0.9⟩ 5).1 =
      some (.keyError "ghost_server") ∧
    (submit_feedback (initial_reputations 0)
      ⟨"ghost_server", "SUCCESS", 0.1, 0.9⟩ 5).1 ≠ none := by
  have h : initial_reputations 0 "ghost_server" = none := by
    simp [initial_reputations, CATALOG]
  have hget : get_reputation (initial_reputations 0) "ghost_server" 5 =
      (DEFAULT_INITIAL_SCORE, initial_reputations 0) := by
    simp only [get_reputation, h]
  constructor
  · simp only [submit_feedback, hget, h]
  · simp only [submit_feedback, hget, h]
    exact Option.some_ne_none _

/-- C4 amended: submitting feedback for a server id that is not in the
reputation table never mutates any reputation state — but it raises a
`KeyError` to the caller rather than merely logging the error: the
update is dropped by crashing, not silently. -/
theorem C4_unknown_server_amended (reps : Reputations) (log_entry : LogEntry)
    (now : ℝ) (h : reps log_entry.server_id = none) :
    (submit_feedback reps log_entry now).1 =
      some (.keyError log_entry.server_id) ∧
    (submit_feedback reps log_entry now).2 = reps := by
  have hget : get_reputation reps log_entry.server_id now =
      (DEFAULT_INITIAL_SCORE, reps) := by
    simp only [get_reputation, h]
  constructor
  · simp only [submit_feedback, hget, h]
  · simp only [submit_feedback, hget, h]

/-- Witness for the amended C4 at the concrete unregistered id
`"ghost_server"` against the freshly initialized table. -/
theorem C4_unknown_server_amended_witness :
    (initial_reputations 0 "ghost_server" = none) ∧
    (submit_feedback (initial_reputations 0)
      ⟨"ghost_server", "ERROR", 0.2, 0.4⟩ 7).1 =
      some (.keyError "ghost_server") ∧
    (submit_feedback (initial_reputations 0)
      ⟨"ghost_server", "ERROR", 0.2, 0.4⟩ 7).2 = initial_reputations 0 := by
  have h : initial_reputations 0 "ghost_server" = none := by
    simp [initial_reputations, CATALOG]
  have hm := C4_unknown_server_amended (initial_reputations 0)
    ⟨"ghost_server", "ERROR", 0.2, 0.4⟩ 7 h
  exact ⟨h, hm.1, hm.2⟩

/-! ## Claim C6: scores stay in [0,1] under every operation sequence -/

/-- Any score produced by `calculate_new_score` lies in `[0,1]`: the
code clamps before rounding, for arbitrary (even out-of-range)
satisfaction and latency inputs and any current score. -/
theorem calculate_new_score_mem (current : ℝ) (log_entry : LogEntry) (v : ℝ)
    (h : calculate_new_score current log_entry = some v) : 0 ≤ v ∧ v ≤ 1 := by
  cases hcat : catalogLookup log_entry.server_id with
  | none => simp [calculate_new_score, hcat] at h
  | some entry =>
      simp only [calculate_new_score, hcat] at h
      obtain rfl := Option.some.inj h.symm
      set x := ALPHA_SMOOTHING *
        (WEIGHT_SATISFACTION * max 0.0 (min 1.0 log_entry.client_satisfaction) +
         WEIGHT_RELIABILITY *
           (if log_entry.outcome_status = "SUCCESS" then (1.0:ℝ) else 0.0) +
         WEIGHT_LATENCY_PENALTY *
           (1.0 - min 1.0 (log_entry.latency_sec / MAX_ACCEPTABLE_LATENCY)) +
         WEIGHT_COST_EFFICIENCY *
           (if entry.cost_per_unit ≤ get_avg_cost_for_tool entry.tool_type then (1.0:ℝ)
            else max 0.0 (1.0 -
              (entry.cost_per_unit - get_avg_cost_for_tool entry.tool_type) /
                get_avg_cost_for_tool entry.tool_type))) +
        (1 - ALPHA_SMOOTHING) * current with hx
      have h0 : (0:ℝ) ≤ max 0.0 (min 1.0 x) := le_max_of_le_left (by norm_num)
      have h1 : max 0.0 (min 1.0 x) ≤ 1 :=
        max_le (by norm_num) (le_trans (min_le_left _ _) (by norm_num))
      constructor
      · have := le_round4 (max 0.0 (min 1.0 x)) 0 (by push_cast; linarith)
        push_cast at this; linarith
      · have := round4_le (max 0.0 (min 1.0 x)) 10000 (by push_cast; linarith)
        push_cast at this; linarith

/-- A `get_reputation` call keeps every stored score in `[0,1]`. -/
theorem get_reputation_preserves_mem (reps : Reputations) (server_id : String)
    (now : ℝ)
    (hinv : ∀ i e, reps i = some e → 0 ≤ e.score ∧ e.score ≤ 1) :
    ∀ i e, (get_reputation reps server_id now).2 i = some e →
      0 ≤ e.score ∧ e.score ≤ 1 := by
  intro i e hi
  cases hrep : reps server_id with
  | none =>
      simp only [get_reputation, hrep] at hi
      exact hinv i e hi
  | some entry =>
      simp only [get_reputation, hrep] at hi
      by_cases hlt : apply_decay entry.score entry.last_update now < entry.score
      · rw [if_pos hlt] at hi
        simp only at hi
        by_cases hid : i = server_id
        · rw [if_pos hid] at hi
          obtain rfl := Option.some.inj hi.symm
          simp only
          exact apply_decay_mem (hinv server_id entry hrep).1 (hinv server_id entry hrep).2
        · rw [if_neg hid] at hi
          exact hinv i e hi
      · rw [if_neg hlt] at hi
        exact hinv i e hi

/-- A `submit_feedback` call keeps every stored score in `[0,1]`
(whether it succeeds or raises). -/
theorem submit_feedback_preserves_mem (reps : Reputations) (log_entry : LogEntry)
    (now : ℝ)
    (hinv : ∀ i e, reps i = some e → 0 ≤ e.score ∧ e.score ≤ 1) :
    ∀ i e, (submit_feedback reps log_entry now).2 i = some e →
      0 ≤ e.score ∧ e.score ≤ 1 := by
  intro i e hi
  have hinv1 := get_reputation_preserves_mem reps log_entry.server_id now hinv
  set res := get_reputation reps log_entry.server_id now with hres
  simp only [submit_feedback, ← hres] at hi
  cases hrep1 : res.2 log_entry.server_id with
  | none =>
      rw [hrep1] at hi
      exact hinv1 i e hi
  | some entry =>
      rw [hrep1] at hi
      cases hcalc : calculate_new_score res.1 log_entry with
      | none =>
          rw [hcalc] at hi
          exact hinv1 i e hi
      | some new_score =>
          rw [hcalc] at hi
          simp only at hi
          by_cases hid : i = log_entry.server_id
          · rw [if_pos hid] at hi
            obtain rfl := Option.some.inj hi.symm
            simp only
            exact calculate_new_score_mem res.1 log_entry new_score hcalc
          · rw [if_neg hid] at hi
            exact hinv1 i e hi

/-- Every freshly initialized score is in `[0,1]`. -/
theorem initial_reputations_mem (t : ℝ) :
    ∀ i e, initial_reputations t i = some e → 0 ≤ e.score ∧ e.score ≤ 1 := by
  intro i e hi
  simp only [initial_reputations] at hi
  by_cases hc : (CATALOG.map Prod.fst).contains i
  · rw [if_pos hc] at hi
    obtain rfl := Option.some.inj hi.symm
    simp only
    unfold initial_score DEFAULT_INITIAL_SCORE
    split <;> try norm_num
    split <;> try norm_num
    split <;> try norm_num
    split <;> try norm_num
    split <;> norm_num
  · rw [if_neg hc] at hi
    exact Option.noConfusion hi

/-- C6: starting from initialization, after any sequence of
`get_reputation` reads and `submit_feedback` writes — with arbitrary,
possibly out-of-range, satisfaction and latency inputs — every score
stored in the reputation table lies in `[0,1]`. -/
theorem C6_score_invariant (t : ℝ) (ops : List Op) :
    ∀ (id : String) (e : RepEntry),
      (ops.foldl step (initial_reputations t)) id = some e →
      0 ≤ e.score ∧ e.score ≤ 1 := by
  suffices hstep : ∀ (ops : List Op) (reps : Reputations),
      (∀ i e, reps i = some e → 0 ≤ e.score ∧ e.score ≤ 1) →
      ∀ i e, (ops.foldl step reps) i = some e → 0 ≤ e.score ∧ e.score ≤ 1 by
    exact fun id e h => hstep ops (initial_reputations t) (initial_reputations_mem t) id e h
  intro ops
  induction ops with
  | nil => intro reps hinv i e hi; exact hinv i e hi
  | cons op rest ih =>
      intro reps hinv i e hi
      refine ih (step reps op) ?_ i e hi
      cases op with
      | getRep server_id now =>
          exact get_reputation_preserves_mem reps server_id now hinv
      | feedback log_entry now =>
          exact submit_feedback_preserves_mem reps log_entry now hinv

/-- Witness for C6 at the empty operation sequence and the seed entry of
`compute_server_1` (score `0.85`). -/
theorem C6_score_invariant_witness :
    ((List.foldl step (initial_reputations 0) []) "compute_server_1" =
      some (⟨0.85, 0, 0⟩ : RepEntry)) ∧
    (0 ≤ (0.85:ℝ) ∧ (0.85:ℝ) ≤ 1) := by
  have h : (List.foldl step (initial_reputations 0) []) "compute_server_1" =
      some (⟨0.85, 0, 0⟩ : RepEntry) := by
    rfl
  exact ⟨h, C6_score_invariant 0 [] "compute_server_1" ⟨0.85, 0, 0⟩ h⟩

/-! ## Claim C3: decay moves toward the baseline and converges to it -/

/-- On the decay branch the deviation from baseline is
`max 0 ((s - baseline) * factor)`: nonnegative, because the code floors
the decayed score at the baseline. -/
theorem apply_decay_sub_baseline {last now : ℝ} (s : ℝ) (h : 1 ≤ now - last) :
    apply_decay s last now - DEFAULT_INITIAL_SCORE =
      max 0 ((s - DEFAULT_INITIAL_SCORE) *
        (0.5 : ℝ) ^ ((now - last) / (REPUTATION_DECAY_HALF_LIFE_HOURS * 3600))) := by
  rw [apply_decay_of_elapsed s h]
  set y := (s - DEFAULT_INITIAL_SCORE) *
    (0.5 : ℝ) ^ ((now - last) / (REPUTATION_DECAY_HALF_LIFE_HOURS * 3600)) with hy
  have hmax : max DEFAULT_INITIAL_SCORE (DEFAULT_INITIAL_SCORE + y) =
      DEFAULT_INITIAL_SCORE + max 0 y := by
    have h2 := max_add_add_left DEFAULT_INITIAL_SCORE 0 y
    rw [add_zero] at h2
    exact h2
  rw [hmax]
  ring

/-- The decay factor is antitone in elapsed time. -/
theorem decay_factor_antitone {t0 t1 t2 : ℝ} (h12 : t1 ≤ t2) :
    (0.5 : ℝ) ^ ((t2 - t0) / (REPUTATION_DECAY_HALF_LIFE_HOURS * 3600)) ≤
      (0.5 : ℝ) ^ ((t1 - t0) / (REPUTATION_DECAY_HALF_LIFE_HOURS * 3600)) := by
  apply Real.rpow_le_rpow_of_exponent_ge (by norm_num) (by norm_num)
  exact (div_le_div_iff_of_pos_right half_life_seconds_pos).mpr (by linarith)

/-- C3: decay is the identity below one second of elapsed time; past
that it lands between the score and the baseline `0.50` (never past the
baseline, never away from it), its distance to the baseline is antitone
in elapsed time, and it converges to the baseline as elapsed time goes
to infinity. -/
theorem C3_decay_toward_baseline (s t0 t1 : ℝ) (h01 : t0 ≤ t1) :
    (t1 - t0 < 1 → apply_decay s t0 t1 = s) ∧
    (1 ≤ t1 - t0 →
      min s DEFAULT_INITIAL_SCORE ≤ apply_decay s t0 t1 ∧
      apply_decay s t0 t1 ≤ max s DEFAULT_INITIAL_SCORE) ∧
    (∀ t2, 1 ≤ t1 - t0 → t1 ≤ t2 →
      |apply_decay s t0 t2 - DEFAULT_INITIAL_SCORE| ≤
        |apply_decay s t0 t1 - DEFAULT_INITIAL_SCORE|) ∧
    Tendsto (fun t => apply_decay s t0 t) atTop (nhds DEFAULT_INITIAL_SCORE) := by
  have habs : ∀ t : ℝ, 1 ≤ t - t0 →
      |apply_decay s t0 t - DEFAULT_INITIAL_SCORE| =
        max 0 ((s - DEFAULT_INITIAL_SCORE) *
          (0.5 : ℝ) ^ ((t - t0) / (REPUTATION_DECAY_HALF_LIFE_HOURS * 3600))) := by
    intro t ht
    rw [apply_decay_sub_baseline s ht]
    exact abs_of_nonneg (le_max_left _ _)
  refine ⟨fun h => apply_decay_of_recent s h, ?_, ?_, ?_⟩
  · intro h
    set f := (0.5 : ℝ) ^ ((t1 - t0) / (REPUTATION_DECAY_HALF_LIFE_HOURS * 3600)) with hfdef
    have hfpos : 0 < f := decay_factor_pos
    have hfle : f ≤ 1 := decay_factor_le_one h
    have hdiff := apply_decay_sub_baseline s h
    rw [← hfdef] at hdiff
    constructor
    · have h1 : DEFAULT_INITIAL_SCORE ≤ apply_decay s t0 t1 := by
        have := le_max_left 0 ((s - DEFAULT_INITIAL_SCORE) * f)
        linarith [hdiff ▸ this]
      exact le_trans (min_le_right _ _) h1
    · rcases le_or_lt (s - DEFAULT_INITIAL_SCORE) 0 with hd | hd
      · have hz : max 0 ((s - DEFAULT_INITIAL_SCORE) * f) = 0 :=
          max_eq_left (mul_nonpos_of_nonpos_of_nonneg hd (le_of_lt hfpos))
        have : apply_decay s t0 t1 = DEFAULT_INITIAL_SCORE := by linarith [hdiff, hz.symm ▸ hdiff]
        rw [this]
        exact le_max_right _ _
      · have hle : (s - DEFAULT_INITIAL_SCORE) * f ≤ s - DEFAULT_INITIAL_SCORE := by
          nlinarith
        have hmx : max 0 ((s - DEFAULT_INITIAL_SCORE) * f) ≤ s - DEFAULT_INITIAL_SCORE :=
          max_le (by linarith) hle
        have : apply_decay s t0 t1 ≤ s := by linarith
        exact le_trans this (le_max_left _ _)
  · intro t2 h1 h12
    have h2 : 1 ≤ t2 - t0 := by linarith
    rw [habs t1 h1, habs t2 h2]
    rcases le_or_lt (s - DEFAULT_INITIAL_SCORE) 0 with hd | hd
    · have hz1 : max 0 ((s - DEFAULT_INITIAL_SCORE) *
          (0.5 : ℝ) ^ ((t1 - t0) / (REPUTATION_DECAY_HALF_LIFE_HOURS * 3600))) = 0 :=
        max_eq_left (mul_nonpos_of_nonpos_of_nonneg hd (le_of_lt decay_factor_pos))
      have hz2 : max 0 ((s - DEFAULT_INITIAL_SCORE) *
          (0.5 : ℝ) ^ ((t2 - t0) / (REPUTATION_DECAY_HALF_LIFE_HOURS * 3600))) = 0 :=
        max_eq_left (mul_nonpos_of_nonpos_of_nonneg hd (le_of_lt decay_factor_pos))
      rw [hz1, hz2]
    · apply max_le_max le_rfl
      exact mul_le_mul_of_nonneg_left (decay_factor_antitone h12) (le_of_lt hd)
  · have hdiv : Tendsto
        (fun t : ℝ => (t - t0) / (REPUTATION_DECAY_HALF_LIFE_HOURS * 3600))
        atTop atTop := by
      apply Tendsto.atTop_div_const half_life_seconds_pos
      simpa [sub_eq_add_neg] using tendsto_atTop_add_const_right atTop (-t0) tendsto_id
    have hf : Tendsto
        (fun t : ℝ => (0.5 : ℝ) ^ ((t - t0) / (REPUTATION_DECAY_HALF_LIFE_HOURS * 3600)))
        atTop (nhds 0) :=
      (tendsto_rpow_atTop_of_base_lt_one 0.5 (by norm_num) (by norm_num)).comp hdiv
    have hmul : Tendsto
        (fun t : ℝ => (s - DEFAULT_INITIAL_SCORE) *
          (0.5 : ℝ) ^ ((t - t0) / (REPUTATION_DECAY_HALF_LIFE_HOURS * 3600)))
        atTop (nhds 0) := by
      simpa using hf.const_mul (s - DEFAULT_INITIAL_SCORE)
    have hmax : Tendsto
        (fun t : ℝ => max 0 ((s - DEFAULT_INITIAL_SCORE) *
          (0.5 : ℝ) ^ ((t - t0) / (REPUTATION_DECAY_HALF_LIFE_HOURS * 3600))))
        atTop (nhds 0) := by
      have h0 : Tendsto (fun _ : ℝ => (0:ℝ)) atTop (nhds 0) := tendsto_const_nhds
      have := h0.max hmul
      simpa using this
    have hsum : Tendsto
        (fun t : ℝ => DEFAULT_INITIAL_SCORE + max 0 ((s - DEFAULT_INITIAL_SCORE) *
          (0.5 : ℝ) ^ ((t - t0) / (REPUTATION_DECAY_HALF_LIFE_HOURS * 3600))))
        atTop (nhds DEFAULT_INITIAL_SCORE) := by
      have hD : Tendsto (fun _ : ℝ => DEFAULT_INITIAL_SCORE) atTop
          (nhds DEFAULT_INITIAL_SCORE) := tendsto_const_nhds
      have := hD.add hmax
      simpa using this
    apply hsum.congr'
    filter_upwards [eventually_ge_atTop (t0 + 1)] with t ht
    have h1 : 1 ≤ t - t0 := by linarith
    have := @apply_decay_sub_baseline t0 t s h1
    linarith

/-- Witness for C3 at score `0.8`, `t0 = 0`, `t1 = 3`. -/
theorem C3_decay_toward_baseline_witness :
    ((0:ℝ) ≤ 3) ∧ (1 ≤ (3:ℝ) - 0) ∧
    (min 0.8 DEFAULT_INITIAL_SCORE ≤ apply_decay 0.8 0 3 ∧
      apply_decay 0.8 0 3 ≤ max 0.8 DEFAULT_INITIAL_SCORE) ∧
    Tendsto (fun t => apply_decay 0.8 0 t) atTop (nhds DEFAULT_INITIAL_SCORE) := by
  have h01 : (0:ℝ) ≤ 3 := by norm_num
  have h1 : 1 ≤ (3:ℝ) - 0 := by norm_num
  exact ⟨h01, h1, (C3_decay_toward_baseline 0.8 0 3 h01).2.1 h1,
    (C3_decay_toward_baseline 0.8 0 3 h01).2.2.2⟩

/-! ## Claim C7: discovery — sorting lemmas -/

/-- Inserting is a permutation: `insertDesc x l` has exactly the
elements of `x :: l`. -/
theorem insertDesc_perm (x : Candidate) (l : List Candidate) :
    (insertDesc x l).Perm (x :: l) := by
  induction l with
  | nil => exact List.Perm.refl _
  | cons y ys ih =>
      unfold insertDesc
      by_cases h : x.score ≤ y.score
      · rw [if_pos h]
        exact (ih.cons y).trans (List.Perm.swap x y ys)
      · rw [if_neg h]

/-- Inserting into a descending list keeps it descending. -/
theorem insertDesc_pairwise (x : Candidate) (l : List Candidate)
    (h : l.Pairwise (fun a b => b.score ≤ a.score)) :
    (insertDesc x l).Pairwise (fun a b => b.score ≤ a.score) := by
  induction l with
  | nil => simp [insertDesc]
  | cons y ys ih =>
      obtain ⟨hy, hys⟩ := List.pairwise_cons.mp h
      unfold insertDesc
      by_cases hxy : x.score ≤ y.score
      · rw [if_pos hxy]
        refine List.pairwise_cons.mpr ⟨?_, ih hys⟩
        intro b hb
        have hb' : b ∈ x :: ys := (insertDesc_perm x ys).mem_iff.mp hb
        rcases List.mem_cons.mp hb' with rfl | hbys
        · exact hxy
        · exact hy b hbys
      · rw [if_neg hxy]
        push_neg at hxy
        refine List.pairwise_cons.mpr ⟨?_, h⟩
        intro b hb
        rcases List.mem_cons.mp hb with rfl | hbys
        · exact le_of_lt hxy
        · exact le_trans (hy b hbys) (le_of_lt hxy)

/-- Stability of one insertion: among candidates of a fixed score `q`,
inserting lands after all existing ones (the list being descending), so
the `score = q` sublist order is preserved. -/
theorem insertDesc_filter (x : Candidate) (q : ℝ) (l : List Candidate)
    (hsorted : l.Pairwise (fun a b => b.score ≤ a.score)) :
    (insertDesc x l).filter (fun c => decide (c.score = q)) =
      if x.score = q then
        l.filter (fun c => decide (c.score = q)) ++ [x]
      else l.filter (fun c => decide (c.score = q)) := by
  induction l with
  | nil =>
      simp only [insertDesc, List.filter]
      by_cases hx : x.score = q
      · simp [hx]
      · simp [hx]
  | cons y ys ih =>
      obtain ⟨hy, hys⟩ := List.pairwise_cons.mp hsorted
      unfold insertDesc
      by_cases hxy : x.score ≤ y.score
      · rw [if_pos hxy, List.filter_cons, List.filter_cons, ih hys]
        by_cases hyq : y.score = q
        · have h1 : (decide (y.score = q)) = true := decide_eq_true hyq
          by_cases hx : x.score = q <;> simp [h1, hx]
        · have h1 : (decide (y.score = q)) = false := decide_eq_false hyq
          by_cases hx : x.score = q <;> simp [h1, hx]
      · rw [if_neg hxy]
        push_neg at hxy
        by_cases hx : x.score = q
        · have hnil : (y :: ys).filter (fun c => decide (c.score = q)) = [] := by
            rw [List.filter_eq_nil_iff]
            intro a ha
            rcases List.mem_cons.mp ha with rfl | hays
            · simp only [decide_eq_true_eq]
              intro haq
              rw [← hx] at haq
              exact absurd haq (ne_of_lt hxy)
            · simp only [decide_eq_true_eq]
              intro haq
              have h1 : a.score ≤ y.score := hy a hays
              rw [haq, ← hx] at h1
              exact absurd hxy (not_lt.mpr h1)
          have hxq : (decide (x.score = q)) = true := decide_eq_true hx
          rw [if_pos hx, List.filter_cons, hxq, hnil]
          simp
        · have hxq : (decide (x.score = q)) = false := decide_eq_false hx
          rw [if_neg hx, List.filter_cons, hxq]
          simp

/-- Folding insertions preserves descending sortedness of the
accumulator. -/
theorem foldl_insertDesc_pairwise :
    ∀ (l acc : List Candidate),
      acc.Pairwise (fun a b => b.score ≤ a.score) →
      (l.foldl (fun acc x => insertDesc x acc) acc).Pairwise
        (fun a b => b.score ≤ a.score) := by
  intro l
  induction l with
  | nil => intro acc h; exact h
  | cons x xs ih =>
      intro acc h
      exact ih (insertDesc x acc) (insertDesc_pairwise x acc h)

/-- Folding insertions permutes the accumulator and the input. -/
theorem foldl_insertDesc_perm :
    ∀ (l acc : List Candidate),
      (l.foldl (fun acc x => insertDesc x acc) acc).Perm (acc ++ l) := by
  intro l
  induction l with
  | nil => intro acc; simp
  | cons x xs ih =>
      intro acc
      have h1 := ih (insertDesc x acc)
      have h2 : ((insertDesc x acc) ++ xs).Perm ((x :: acc) ++ xs) :=
        (insertDesc_perm x acc).append_right xs
      have h3 : ((x :: acc) ++ xs).Perm (acc ++ x :: xs) :=
        List.perm_middle.symm
      exact (h1.trans h2).trans h3

/-- Folding insertions is stable: the sublist at any fixed score `q`
is the accumulator's followed by the input's, in their original
orders. -/
theorem foldl_insertDesc_filter (q : ℝ) :
    ∀ (l acc : List Candidate),
      acc.Pairwise (fun a b => b.score ≤ a.score) →
      (l.foldl (fun acc x => insertDesc x acc) acc).filter
          (fun c => decide (c.score = q)) =
        acc.filter (fun c => decide (c.score = q)) ++
          l.filter (fun c => decide (c.score = q)) := by
  intro l
  induction l with
  | nil => intro acc h; simp
  | cons x xs ih =>
      intro acc h
      have h1 := ih (insertDesc x acc) (insertDesc_pairwise x acc h)
      rw [List.foldl_cons, h1, insertDesc_filter x q acc h, List.filter_cons]
      by_cases hx : x.score = q
      · have hxq : (decide (x.score = q)) = true := decide_eq_true hx
        rw [if_pos hx, hxq]
        simp
      · have hxq : (decide (x.score = q)) = false := decide_eq_false hx
        rw [if_neg hx, hxq]
        simp

/-- The stable descending sort: sorted output. -/
theorem sortDesc_pairwise (l : List Candidate) :
    (sortDesc l).Pairwise (fun a b => b.score ≤ a.score) :=
  foldl_insertDesc_pairwise l [] (List.Pairwise.nil)

/-- The stable descending sort: a permutation of the input. -/
theorem sortDesc_perm (l : List Candidate) : (sortDesc l).Perm l := by
  have := foldl_insertDesc_perm l []
  simpa [sortDesc] using this

/-- The stable descending sort: equal-score candidates keep their input
order. -/
theorem sortDesc_filter (l : List Candidate) (q : ℝ) :
    (sortDesc l).filter (fun c => decide (c.score = q)) =
      l.filter (fun c => decide (c.score = q)) := by
  have := foldl_insertDesc_filter q l [] (List.Pairwise.nil)
  simpa [sortDesc] using this

/-- A `get_reputation` call never touches another server's entry. -/
theorem get_reputation_snd_other (reps : Reputations) (server_id : String)
    (now : ℝ) (id' : String) (h : id' ≠ server_id) :
    (get_reputation reps server_id now).2 id' = reps id' := by
  cases hrep : reps server_id with
  | none => simp only [get_reputation, hrep]
  | some entry =>
      simp only [get_reputation, hrep]
      by_cases hlt : apply_decay entry.score entry.last_update now < entry.score
      · rw [if_pos hlt]
        simp only [if_neg h]
      · rw [if_neg hlt]

/-- The value returned by `get_reputation` depends only on the queried
server's own entry. -/
theorem get_reputation_fst_congr (reps reps' : Reputations) (server_id : String)
    (now : ℝ) (h : reps server_id = reps' server_id) :
    (get_reputation reps server_id now).1 = (get_reputation reps' server_id now).1 := by
  cases hrep : reps' server_id with
  | none =>
      have hrep2 : reps server_id = none := by rw [h, hrep]
      simp only [get_reputation, hrep, hrep2]
  | some entry =>
      have hrep2 : reps server_id = some entry := by rw [h, hrep]
      simp only [get_reputation, hrep, hrep2]
      by_cases hlt : apply_decay entry.score entry.last_update now < entry.score
      · rw [if_pos hlt, if_pos hlt]
      · rw [if_neg hlt, if_neg hlt]

/-- The discovery iteration keeps exactly the servers of the requested
tool type, in catalog order. -/
theorem discover_loop_ids (tool : ToolType) (now : ℝ) :
    ∀ (L : List (String × CatalogEntry)) (reps : Reputations),
      ((discover_loop tool now L reps).1).map (fun c => c.server_id) =
        (L.filter (fun p => p.2.tool_type == tool)).map Prod.fst := by
  intro L
  induction L with
  | nil => intro reps; rfl
  | cons p rest ih =>
      intro reps
      obtain ⟨s_id, data⟩ := p
      by_cases h : data.tool_type = tool
      · have hb : (data.tool_type == tool) = true := by
          simp [h]
        simp only [discover_loop, if_pos h, List.map_cons, List.filter_cons, hb]
        rw [ih]
        rfl
      · have hb : (data.tool_type == tool) = false := by
          simp [h]
        simp only [discover_loop, if_neg h, List.filter_cons, hb]
        exact ih _

/-- Every candidate the discovery iteration produces carries the live
(decayed) reputation of its server as read from the pre-call table:
provided the remaining catalog ids are distinct and the threaded table
still agrees with the original on them, each score is what
`get_reputation` returns against the original table. -/
theorem discover_loop_scores (tool : ToolType) (now : ℝ) :
    ∀ (L : List (String × CatalogEntry)) (reps reps0 : Reputations),
      (L.map Prod.fst).Nodup →
      (∀ p ∈ L, reps p.1 = reps0 p.1) →
      ∀ c ∈ (discover_loop tool now L reps).1,
        c.score = (get_reputation reps0 c.server_id now).1 ∧
        c.tool_type = tool := by
  intro L
  induction L with
  | nil => intro reps reps0 _ _ c hc; exact absurd hc (List.not_mem_nil c)
  | cons p rest ih =>
      intro reps reps0 hnd hagree c hc
      obtain ⟨s_id, data⟩ := p
      have hmap : (List.map Prod.fst ((s_id, data) :: rest)) =
          s_id :: rest.map Prod.fst := rfl
      rw [hmap] at hnd
      have hnd' := List.nodup_cons.mp hnd
      by_cases h : data.tool_type = tool
      · simp only [discover_loop, if_pos h] at hc
        rcases List.mem_cons.mp hc with rfl | htail
        · constructor
          · exact get_reputation_fst_congr reps reps0 s_id now
              (hagree (s_id, data) (List.mem_cons_self _ _))
          · rfl
        · refine ih (get_reputation reps s_id now).2 reps0 hnd'.2 ?_ c htail
          intro p' hp'
          have hne : p'.1 ≠ s_id := by
            intro hcontra
            apply hnd'.1
            rw [← hcontra]
            exact List.mem_map.mpr ⟨p', hp', rfl⟩
          rw [get_reputation_snd_other reps s_id now p'.1 hne]
          exact hagree p' (List.mem_cons_of_mem _ hp')
      · simp only [discover_loop, if_neg h] at hc
        exact ih reps reps0 hnd'.2
          (fun p' hp' => hagree p' (List.mem_cons_of_mem _ hp')) c hc

/-- C7: `discover_servers` iterates the catalog, keeps exactly the
servers whose tool type matches (in catalog order, witnessed by the id
map), reads each one's live decayed reputation via the score store, and
returns them sorted descending by score with equal scores preserving
catalog iteration order (stability of the sort); when no server matches,
the result is the empty list and no error occurs. -/
theorem C7_discover_servers (reps : Reputations) (tool : ToolType) (now : ℝ) :
    (discover_servers reps tool now).1 =
      sortDesc (discover_loop tool now CATALOG reps).1 ∧
    ((discover_servers reps tool now).1).Perm
      (discover_loop tool now CATALOG reps).1 ∧
    (((discover_loop tool now CATALOG reps).1).map (fun c => c.server_id) =
      (CATALOG.filter (fun p => p.2.tool_type == tool)).map Prod.fst) ∧
    (∀ c ∈ (discover_servers reps tool now).1,
      c.score = (get_reputation reps c.server_id now).1 ∧ c.tool_type = tool) ∧
    ((discover_servers reps tool now).1).Pairwise (fun a b => b.score ≤ a.score) ∧
    (∀ q : ℝ,
      ((discover_servers reps tool now).1).filter (fun c => decide (c.score = q)) =
        ((discover_loop tool now CATALOG reps).1).filter
          (fun c => decide (c.score = q))) ∧
    (CATALOG.filter (fun p => p.2.tool_type == tool) = [] →
      (discover_servers reps tool now).1 = []) := by
  have hnodup : (CATALOG.map Prod.fst).Nodup := by
    have h : CATALOG.map Prod.fst =
        ["compute_server_1", "data_server_2", "low_score_server_3",
         "image_fast_4", "image_cheap_5", "semantic_db_6"] := rfl
    rw [h]
    decide
  have ha : (discover_servers reps tool now).1 =
      sortDesc (discover_loop tool now CATALOG reps).1 := rfl
  have hperm : ((discover_servers reps tool now).1).Perm
      (discover_loop tool now CATALOG reps).1 := by
    rw [ha]; exact sortDesc_perm _
  refine ⟨ha, hperm, discover_loop_ids tool now CATALOG reps, ?_, ?_, ?_, ?_⟩
  · intro c hc
    have hmem : c ∈ (discover_loop tool now CATALOG reps).1 := hperm.mem_iff.mp hc
    exact discover_loop_scores tool now CATALOG reps reps hnodup
      (fun p _ => rfl) c hmem
  · rw [ha]; exact sortDesc_pairwise _
  · intro q; rw [ha]; exact sortDesc_filter _ q
  · intro hempty
    have hmap := discover_loop_ids tool now CATALOG reps
    rw [hempty] at hmap
    simp only [List.map_nil] at hmap
    have hnil : (discover_loop tool now CATALOG reps).1 = [] :=
      List.map_eq_nil_iff.mp hmap
    rw [ha, hnil]
    rfl

/-- Witness for C7 at the tool type `REASONING`, which no catalog server
offers: the filtered catalog is empty and discovery returns the empty
list (no error). -/
theorem C7_discover_servers_witness :
    (CATALOG.filter (fun p => p.2.tool_type == ToolType.REASONING) = []) ∧
    (discover_servers (initial_reputations 0) ToolType.REASONING 0).1 = [] := by
  have hempty : CATALOG.filter (fun p => p.2.tool_type == ToolType.REASONING) = [] := by
    rfl
  exact ⟨hempty,
    (C7_discover_servers (initial_reputations 0) ToolType.REASONING 0).2.2.2.2.2.2 hempty⟩
